import Mathlib

/-!
# miio-go: the framed transport of `proto/connection.go`

A shallow embedding of the wire-level code of the miio client:
`prepareRequest`, `parseHandshakeResponse`, `Conn.handshake`, `Conn.Write`,
`Conn.Read` and `Dial`.

Conventions.
* A Go `[]byte` is a `List Nat`; every byte the code itself produces is
  reduced `% 256`.  A Go `string` is the list of its bytes.
* A Go `uint32` is a `Nat` below `2 ^ 32`; `uint16(x)` is `x % 65536`.
* A Go `error` is `Option GoError` (`none` is `nil`).
* A run-time panic (slice bounds, `make` with a length out of range, nil
  dereference) is the outcome `Run.panic`; a normal return is `Run.done`.
* The datagram socket is explicit state: the datagrams handed to it and two
  scripts giving the outcome of each write and each read.
-/

namespace Miio

/-- A Go byte slice. -/
abbrev Bytes := List Nat

/-- Outcome of running Go code: a normal return or a run-time panic. -/
inductive Run (α : Type) where
  | done : α → Run α
  | panic : String → Run α
deriving Repr, DecidableEq

/-- Sequencing of Go code: a panic aborts everything after it. -/
def Run.bind {α β : Type} (r : Run α) (f : α → Run β) : Run β :=
  match r with
  | .done a => f a
  | .panic m => .panic m

/-- Go error values returned by the code under study. -/
inductive GoError where
  /-- `unable to parse handshake, expected 32 bytes, got %d` -/
  | handshakeLength (got : Nat)
  /-- `expected 16 bytes token, got %d` -/
  | tokenLength (got : Nat)
  /-- `encoding/hex: invalid byte` -/
  | hexInvalidByte (b : Nat)
  /-- `encoding/hex: odd length hex string` -/
  | hexLength
  /-- Any error reported by the socket (timeout, closed, refused, ...). -/
  | net (code : Nat)
deriving Repr, DecidableEq

/-! ## Go built-ins and `encoding/binary` -/

/-- The limit `maxAlloc` of the Go runtime on the size of one allocation:
`1 << 48` bytes on 64-bit Linux. -/
def maxAlloc : Int := 281474976710656

/-- Go `make([]byte, n)`: `n` zero bytes; panics with `len out of range` when
`n` is negative or exceeds `maxAlloc`.  An allocation within the limit is
taken to succeed. -/
def make (n : Int) : Run Bytes :=
  if n < 0 ∨ maxAlloc < n then .panic "makeslice: len out of range"
  else .done (List.replicate n.toNat 0)

/-- Go `copy(dst, src)`: the contents of `dst` afterwards.  It overwrites the
first `min (len dst) (len src)` bytes and never changes the length of `dst`. -/
def copy (dst src : Bytes) : Bytes :=
  src.take dst.length ++ dst.drop src.length

/-- Go `copy(dst[off:], src)` on a backing array `dst` with `off ≤ len dst`:
the contents of the whole array afterwards. -/
def copyAt (dst : Bytes) (off : Nat) (src : Bytes) : Bytes :=
  dst.take off ++ copy (dst.drop off) src

/-- Go slice expression `b[i:]`; panics when `i > len b`. -/
def sliceFrom (b : Bytes) (i : Nat) : Run Bytes :=
  if i ≤ b.length then .done (b.drop i)
  else .panic "slice bounds out of range"

/-- Go slice expression `b[:n]` with an `int` bound; panics when `n` is
negative or exceeds `len b` (the capacity equals the length for the buffers
made here). -/
def sliceTo (b : Bytes) (n : Int) : Run Bytes :=
  if 0 ≤ n ∧ n ≤ (b.length : Int) then .done (b.take n.toNat)
  else .panic "slice bounds out of range"

/-- Go `binary.BigEndian.Uint32(b)`: reads the first four bytes, panics on a
shorter slice.  For bytes (values below 256) the bitwise or of the shifted
bytes is their sum. -/
def Uint32 : Bytes → Run Nat
  | b0 :: b1 :: b2 :: b3 :: _ => .done (b0 * 16777216 + b1 * 65536 + b2 * 256 + b3)
  | _ => .panic "index out of range"

/-- Go `binary.BigEndian.Uint16(b)`: reads the first two bytes. -/
def Uint16 : Bytes → Run Nat
  | b0 :: b1 :: _ => .done (b0 * 256 + b1)
  | _ => .panic "index out of range"

/-- Go `binary.BigEndian.PutUint16(a[off:], v)` on an array `a` with
`off + 2 ≤ len a`: the array afterwards (`byte(v >> 8)`, `byte(v)`). -/
def PutUint16 (a : Bytes) (off : Nat) (v : Nat) : Bytes :=
  (a.set off (v / 256 % 256)).set (off + 1) (v % 256)

/-- Go `binary.BigEndian.PutUint32(a[off:], v)` on an array `a` with
`off + 4 ≤ len a`: the array afterwards. -/
def PutUint32 (a : Bytes) (off : Nat) (v : Nat) : Bytes :=
  (((a.set off (v / 16777216 % 256)).set (off + 1) (v / 65536 % 256)).set
    (off + 2) (v / 256 % 256)).set (off + 3) (v % 256)

/-! ## Handshake response and request frame -/

/-- The handshake result: two `uint32` fields. -/
structure handshakeResponse where
  deviceID : Nat
  serverStamp : Nat
deriving Repr, DecidableEq

/-- Both fields are in the range of `uint32`. -/
def handshakeResponse.valid (h : handshakeResponse) : Prop :=
  h.deviceID < 4294967296 ∧ h.serverStamp < 4294967296

instance (h : handshakeResponse) : Decidable h.valid := by
  unfold handshakeResponse.valid; exact inferInstance

/-- The function `parseHandshakeResponse`: the Go pair (pointer, error). -/
def parseHandshakeResponse (b : Bytes) :
    Run (Option handshakeResponse × Option GoError) :=
  let lenght := b.length
  if lenght ≠ 32 then
    .done (none, some (.handshakeLength lenght))
  else
    (sliceFrom b 8).bind fun s8 =>
    (Uint32 s8).bind fun deviceID =>
    (sliceFrom b 12).bind fun s12 =>
    (Uint32 s12).bind fun serverStamp =>
    .done (some ⟨deviceID, serverStamp⟩, none)

/-- The array literal `[32]byte{0x21, 0x31}`. -/
def header0 : Bytes := [0x21, 0x31] ++ List.replicate 30 0

/-- The function `prepareRequest`.  The helper `md5` (variadic over byte
slices) belongs to the cipher code of the package, which is not embedded
here; it is a parameter. -/
def prepareRequest (md5 : List Bytes → Bytes) (token : Bytes)
    (handshake : handshakeResponse) (requestBody : Bytes) : Bytes :=
  let header := header0
  let header := PutUint16 header 2 ((32 + requestBody.length) % 65536)
  let header := PutUint32 header 8 handshake.deviceID
  let header := PutUint32 header 12 handshake.serverStamp
  let checksum := md5 [header.take 16, token, requestBody]
  let header := copyAt header 16 checksum
  header ++ requestBody

/-! ## The datagram socket as explicit state -/

/-- Scripted outcome of one `Read` on the socket. -/
inductive ReadEvent where
  /-- A datagram with these bytes arrives. -/
  | datagram (d : Bytes)
  /-- The read returns `(n, e)` with a non-nil error. -/
  | fail (n : Int) (e : GoError)
deriving Repr, DecidableEq

/-- Scripted outcome of one `Write` on the socket. -/
inductive WriteEvent where
  /-- The whole datagram is sent. -/
  | ok
  /-- The write returns `(n, e)` with a non-nil error. -/
  | fail (n : Int) (e : GoError)
deriving Repr, DecidableEq

/-- The connected UDP socket behind the `net.Conn` field: every datagram
handed to `Write` so far (oldest first) and the scripted outcomes of the
coming writes and reads. -/
structure Sock where
  sent : List Bytes
  writes : List WriteEvent
  reads : List ReadEvent
deriving Repr, DecidableEq

/-- The socket method `Write(p)`: records `p` as handed to the socket and
returns the scripted outcome; with no script left the write succeeds. -/
def Sock.Write (s : Sock) (p : Bytes) : (Int × Option GoError) × Sock :=
  match s.writes with
  | [] => (((p.length : Int), none), { s with sent := s.sent ++ [p] })
  | .ok :: ws => (((p.length : Int), none), { s with sent := s.sent ++ [p], writes := ws })
  | .fail n e :: ws => ((n, some e), { s with sent := s.sent ++ [p], writes := ws })

/-- The socket method `Read(buff)`: returns `(n, err, buff afterwards)`.  A
datagram is copied into `buff`, cut to `len buff`; with no script left
nothing arrives and the read fails. -/
def Sock.Read (s : Sock) (buff : Bytes) : (Int × Option GoError × Bytes) × Sock :=
  match s.reads with
  | [] => ((0, some (.net 0), buff), s)
  | .datagram d :: rs =>
    (((min d.length buff.length : Nat), none, copy buff d), { s with reads := rs })
  | .fail n e :: rs => ((n, some e, buff), { s with reads := rs })

/-! ## The connection -/

/-- The type `deviceKeys`.  It belongs to the cipher code of the package,
which is not embedded here; its methods `encrypt` and `decrypt` are kept
abstract as two functions on byte slices. -/
structure deviceKeys where
  encrypt : Bytes → Bytes
  decrypt : Bytes → Bytes

/-- The constant `DefaultReadBufferSize`. -/
def DefaultReadBufferSize : Int := 4096

/-- The constant `proto`. -/
def proto : String := "udp"

/-- The struct `Conn`. -/
structure Conn where
  Token : Bytes
  ReadBufferSize : Int
  requestID : Int
  conn : Sock
  keys : deviceKeys

/-- What a call of `Conn.Read` leaves behind: the returned pair `(n, err)`,
the caller's buffer afterwards, the arguments of the calls of `keys.decrypt`
it made (in order), and the socket afterwards. -/
structure ReadOut where
  n : Int
  err : Option GoError
  b : Bytes
  decryptCalls : List Bytes
  conn : Sock
deriving Repr, DecidableEq

/-- The method `Conn.Read`. -/
def Conn.Read (c : Conn) (b : Bytes) : Run ReadOut :=
  (make c.ReadBufferSize).bind fun buff =>
  let (r, s1) := c.conn.Read buff
  match r.2.1 with
  | some err => .done ⟨r.1, some err, b, [], s1⟩
  | none =>
    (sliceFrom r.2.2 32).bind fun ct =>
    .done ⟨r.1 - 32, none, copy b (c.keys.decrypt ct), [ct], s1⟩

/-- The 32-byte handshake request `req` of `Conn.handshake`: the literal
`0x21, 0x31, 0x00, 0x20` followed by 28 times `0xff`. -/
def probe : Bytes := [0x21, 0x31, 0x00, 0x20] ++ List.replicate 28 0xff

/-- The method `Conn.handshake`: the Go pair (pointer, error) and the socket
afterwards. -/
def Conn.handshake (c : Conn) :
    Run ((Option handshakeResponse × Option GoError) × Sock) :=
  let req := probe
  let (w, s1) := c.conn.Write req
  match w.2 with
  | some err => .done ((none, some err), s1)
  | none =>
    (make c.ReadBufferSize).bind fun resp =>
    let (r, s2) := s1.Read resp
    match r.2.1 with
    | some err => .done ((none, some err), s2)
    | none =>
      (sliceTo r.2.2 r.1).bind fun respN =>
      (parseHandshakeResponse respN).bind fun p =>
      .done (p, s2)

/-- What a call of `Conn.Write` leaves behind: the returned pair `(n, err)`
and the socket afterwards. -/
structure WriteOut where
  n : Int
  err : Option GoError
  conn : Sock
deriving Repr, DecidableEq

/-- The method `Conn.Write`. -/
def Conn.Write (md5 : List Bytes → Bytes) (c : Conn) (b : Bytes) : Run WriteOut :=
  c.handshake.bind fun hs =>
  match hs.1.2 with
  | some err => .done ⟨0, some err, hs.2⟩
  | none =>
    match hs.1.1 with
    | none => .panic "nil pointer dereference"
    | some h =>
      let encrypted := c.keys.encrypt b
      let req := prepareRequest md5 c.Token h encrypted
      let (w, s2) := hs.2.Write req
      .done ⟨w.1, w.2, s2⟩

/-! ## `Dial` and `encoding/hex` -/

/-- The table `reverseHexTable` of Go `encoding/hex`: the value of a
hexadecimal digit, `0xff` for every other byte. -/
def reverseHexTable (c : Nat) : Nat :=
  if 48 ≤ c ∧ c ≤ 57 then c - 48
  else if 97 ≤ c ∧ c ≤ 102 then c - 87
  else if 65 ≤ c ∧ c ≤ 70 then c - 55
  else 255

/-- Go `hex.DecodeString`: the loop of `hex.Decode` over pairs of bytes,
returning the bytes decoded before the first error, and the error. -/
def DecodeString : Bytes → Bytes × Option GoError
  | [] => ([], none)
  | [p] =>
    if reverseHexTable p > 0x0f then ([], some (.hexInvalidByte p))
    else ([], some .hexLength)
  | p :: q :: rest =>
    let a := reverseHexTable p
    let b := reverseHexTable q
    if a > 0x0f then ([], some (.hexInvalidByte p))
    else if b > 0x0f then ([], some (.hexInvalidByte q))
    else
      let r := DecodeString rest
      ((a * 16 + b) % 256 :: r.1, r.2)

/-- The function `Dial`.  `netDial` is the outcome of `net.Dial` and
`newDeviceKeys` the key derivation of the cipher code, both parameters.  On
an error Go returns the zero `Conn`, which carries nothing. -/
def Dial (netDial : String → Bytes → Except GoError Sock)
    (newDeviceKeys : Bytes → deviceKeys) (addr token : Bytes) : Except GoError Conn :=
  match netDial proto addr with
  | .error err => .error err
  | .ok conn =>
    let d := DecodeString token
    match d.2 with
    | some err => .error err
    | none =>
      let t := d.1
      let tokenLenght := t.length
      if tokenLenght ≠ 16 then .error (.tokenLength tokenLenght)
      else
        let keys := newDeviceKeys t
        .ok { Token := t, ReadBufferSize := DefaultReadBufferSize, requestID := 0,
              conn := conn, keys := keys }

/-! ## Vocabulary of the statements -/

/-- The ASCII hexadecimal digits `0-9`, `a-f`, `A-F`. -/
def isHexDigit (c : Nat) : Prop :=
  c ∈ [48, 49, 50, 51, 52, 53, 54, 55, 56, 57,
       97, 98, 99, 100, 101, 102, 65, 66, 67, 68, 69, 70]

instance (c : Nat) : Decidable (isHexDigit c) := by
  unfold isHexDigit; exact inferInstance

/-- The value of a hexadecimal digit: its position among `0123456789abcdef`
or among `0123456789ABCDEF`. -/
def hexValue (c : Nat) : Nat :=
  if c ∈ [48, 49, 50, 51, 52, 53, 54, 55, 56, 57, 97, 98, 99, 100, 101, 102] then
    List.indexOf c [48, 49, 50, 51, 52, 53, 54, 55, 56, 57, 97, 98, 99, 100, 101, 102]
  else
    List.indexOf c [48, 49, 50, 51, 52, 53, 54, 55, 56, 57, 65, 66, 67, 68, 69, 70]

/-- The bytes written by a string of hexadecimal digits, two digits a byte. -/
def hexBytes : Bytes → Bytes
  | p :: q :: rest => (16 * hexValue p + hexValue q) :: hexBytes rest
  | _ => []

/-- A sample 16-byte digest: the first 16 bytes of the zero-padded input. -/
def sampleDigest (x : Bytes) : Bytes := (x ++ List.replicate 16 0).take 16

/-- A sample variadic `md5`: `sampleDigest` of the concatenated arguments. -/
def sampleMd5 (parts : List Bytes) : Bytes :=
  sampleDigest (parts.foldr (fun x acc => x ++ acc) [])

/-- Sample keys: a byte-wise shift cipher standing in for the device cipher. -/
def sampleKeys : deviceKeys where
  encrypt := fun x => x.map fun v => (v + 1) % 256
  decrypt := fun x => x.map fun v => (v + 255) % 256

/-- Sixteen sample ciphertext bytes. -/
def sampleCipher : Bytes :=
  [11, 21, 31, 41, 51, 61, 71, 81, 91, 101, 111, 121, 131, 141, 151, 161]

/-- A sample 48-byte datagram: a 32-byte header of bytes 9, then `sampleCipher`. -/
def sampleDatagram : Bytes := List.replicate 32 9 ++ sampleCipher

/-- A sample connection: the given read buffer size, nothing sent yet, and the
given scripts for the socket. -/
def sampleConn (size : Int) (writes : List WriteEvent) (reads : List ReadEvent) : Conn where
  Token := List.replicate 16 0xab
  ReadBufferSize := size
  requestID := 0
  conn := ⟨[], writes, reads⟩
  keys := sampleKeys

/-- The bytes `frame[i:j]`. -/
def slice (frame : Bytes) (i j : Nat) : Bytes := (frame.take j).drop i

/-- The first half of the header built by `prepareRequest`. -/
def headerFront (bodyLen : Nat) (h : handshakeResponse) : Bytes :=
  [0x21, 0x31, (32 + bodyLen) % 65536 / 256 % 256, (32 + bodyLen) % 65536 % 256,
   0, 0, 0, 0,
   h.deviceID / 16777216 % 256, h.deviceID / 65536 % 256,
   h.deviceID / 256 % 256, h.deviceID % 256,
   h.serverStamp / 16777216 % 256, h.serverStamp / 65536 % 256,
   h.serverStamp / 256 % 256, h.serverStamp % 256]

/-! ## Helper lemmas -/

theorem copy_length (dst src : Bytes) : (copy dst src).length = dst.length := by
  unfold copy
  simp only [List.length_append, List.length_take, List.length_drop]
  omega

theorem copy_of_length_eq (dst src : Bytes) (h : src.length = dst.length) :
    copy dst src = src := by
  unfold copy
  rw [← h, List.take_length, h, List.drop_length, List.append_nil]

theorem prepareRequest_eq (md5 : List Bytes → Bytes) (token : Bytes)
    (h : handshakeResponse) (body : Bytes) :
    prepareRequest md5 token h body =
      headerFront body.length h ++
        copy (List.replicate 16 0) (md5 [headerFront body.length h, token, body]) ++ body := by
  simp [prepareRequest, header0, PutUint16, PutUint32, copyAt, headerFront, List.replicate]

theorem be32_roundtrip (v : Nat) (hv : v < 4294967296) :
    v / 16777216 % 256 * 16777216 + v / 65536 % 256 * 65536 + v / 256 % 256 * 256 + v % 256
      = v := by
  omega

theorem prepareRequest_length (md5 : List Bytes → Bytes) (token : Bytes)
    (h : handshakeResponse) (body : Bytes) :
    (prepareRequest md5 token h body).length = 32 + body.length := by
  rw [prepareRequest_eq]
  simp only [List.length_append, copy_length, List.length_replicate, headerFront,
    List.length_cons, List.length_nil]

theorem total_length_field (md5 : List Bytes → Bytes) (token : Bytes)
    (h : handshakeResponse) (body : Bytes) :
    (sliceFrom (prepareRequest md5 token h body) 2).bind Uint16
      = .done ((32 + body.length) % 65536) := by
  have hle : 2 ≤ (prepareRequest md5 token h body).length := by
    rw [prepareRequest_length]; omega
  rw [sliceFrom, if_pos hle, prepareRequest_eq]
  simp only [headerFront, List.cons_append, List.drop_succ_cons, List.drop_zero,
    Run.bind, Uint16]
  congr 1
  omega

theorem Uint32_drop (b : Bytes) (i : Nat) (h : i + 4 ≤ b.length) :
    Uint32 (b.drop i) = .done (b.getD i 0 * 16777216 + b.getD (i + 1) 0 * 65536
      + b.getD (i + 2) 0 * 256 + b.getD (i + 3) 0) := by
  have hl : 4 ≤ (b.drop i).length := by rw [List.length_drop]; omega
  have hg : ∀ j, (b.drop i).getD j 0 = b.getD (i + j) 0 := by
    intro j
    simp only [List.getD_eq_getElem?_getD, List.getElem?_drop]
  have h0 := hg 0
  have h1 := hg 1
  have h2 := hg 2
  have h3 := hg 3
  rw [Nat.add_zero] at h0
  rw [← h0, ← h1, ← h2, ← h3]
  match hd : b.drop i, hl with
  | b0 :: b1 :: b2 :: b3 :: rest, _ => simp [Uint32]

theorem parseHandshakeResponse_of_length (b : Bytes) (h : b.length = 32) :
    parseHandshakeResponse b = .done
      (some ⟨b.getD 8 0 * 16777216 + b.getD 9 0 * 65536 + b.getD 10 0 * 256 + b.getD 11 0,
             b.getD 12 0 * 16777216 + b.getD 13 0 * 65536 + b.getD 14 0 * 256 + b.getD 15 0⟩,
       none) := by
  have h8 : 8 ≤ b.length := by omega
  have h12 : 12 ≤ b.length := by omega
  unfold parseHandshakeResponse
  simp only [h, ne_eq, not_true_eq_false, if_false, sliceFrom, Run.bind]
  rw [if_pos (by omega), if_pos (by omega)]
  simp only [Uint32_drop b 8 (by omega), Uint32_drop b 12 (by omega)]

theorem parseHandshakeResponse_of_length_ne (b : Bytes) (h : b.length ≠ 32) :
    parseHandshakeResponse b = .done (none, some (.handshakeLength b.length)) := by
  unfold parseHandshakeResponse
  simp only [h, ne_eq, not_false_eq_true, if_true]

theorem getD_of_slice_eq (b c : Bytes) (i j k : Nat) (hk : i + k < j)
    (h : slice b i j = slice c i j) : b.getD (i + k) 0 = c.getD (i + k) 0 := by
  have e : ∀ x : Bytes, (slice x i j).getD k 0 = x.getD (i + k) 0 := by
    intro x
    simp only [slice, List.getD_eq_getElem?_getD, List.getElem?_drop]
    rw [List.getElem?_take_of_lt hk]
  rw [← e b, ← e c, h]

theorem Sock.Write_sent (s : Sock) (p : Bytes) : (s.Write p).2.sent = s.sent ++ [p] := by
  unfold Sock.Write
  split <;> rfl

theorem Sock.Read_sent (s : Sock) (buff : Bytes) : (s.Read buff).2.sent = s.sent := by
  unfold Sock.Read
  split <;> rfl

theorem handshake_sent (c : Conn) (res : Option handshakeResponse × Option GoError)
    (s1 : Sock) (hf : c.handshake = .done (res, s1)) :
    s1.sent = c.conn.sent ++ [probe] := by
  have hw := Sock.Write_sent c.conn probe
  unfold Conn.handshake at hf
  simp only at hf
  split at hf
  · cases hf
    exact hw
  · cases hm : make c.ReadBufferSize with
    | panic m => rw [hm] at hf; cases hf
    | done resp =>
      have hrd := Sock.Read_sent (c.conn.Write probe).2 resp
      rw [hm] at hf
      simp only [Run.bind] at hf
      split at hf
      · cases hf
        rw [hrd, hw]
      · split at hf
        · split at hf
          · cases hf
            rw [hrd, hw]
          · cases hf
        · cases hf

theorem reverseHexTable_gt_iff (c : Nat) : reverseHexTable c > 0x0f ↔ ¬ isHexDigit c := by
  unfold reverseHexTable isHexDigit
  simp only [List.mem_cons, List.mem_singleton, List.not_mem_nil, or_false]
  split_ifs <;> omega

theorem reverseHexTable_eq_hexValue (c : Nat) (h : isHexDigit c) :
    reverseHexTable c = hexValue c := by
  unfold isHexDigit at h
  simp only [List.mem_cons, List.mem_singleton, List.not_mem_nil, or_false] at h
  rcases h with h | h | h | h | h | h | h | h | h | h | h | h | h | h | h | h | h | h
    | h | h | h | h <;> subst h <;> decide

theorem reverseHexTable_le (c : Nat) (h : isHexDigit c) : reverseHexTable c ≤ 15 := by
  have := (reverseHexTable_gt_iff c).not.mpr (not_not.mpr h)
  omega

/-- Induction over a list two elements at a time, as the loop of `hex.Decode`
walks its input. -/
theorem pairs_induction {P : Bytes → Prop} (h0 : P []) (h1 : ∀ p, P [p])
    (h2 : ∀ p q r, P r → P (p :: q :: r)) : ∀ l, P l
  | [] => h0
  | [p] => h1 p
  | p :: q :: r => h2 p q r (pairs_induction h0 h1 h2 r)

theorem DecodeString_ok_iff (t : Bytes) :
    (DecodeString t).2 = none ↔ (t.length % 2 = 0 ∧ ∀ c ∈ t, isHexDigit c) := by
  induction t using pairs_induction with
  | h0 => simp [DecodeString]
  | h1 p =>
    unfold DecodeString
    split_ifs <;> simp
  | h2 p q r ih =>
    unfold DecodeString
    have hp := reverseHexTable_gt_iff p
    have hq := reverseHexTable_gt_iff q
    simp only [List.length_cons, List.mem_cons, forall_eq_or_imp]
    by_cases h1 : reverseHexTable p > 0x0f
    · simp only [h1, if_true]
      constructor
      · intro h; cases h
      · intro h; exact absurd h.2.1 (hp.mp h1)
    · by_cases h2 : reverseHexTable q > 0x0f
      · simp only [h1, h2, if_true, if_false]
        constructor
        · intro h; cases h
        · intro h; exact absurd h.2.2.1 (hq.mp h2)
      · simp only [h1, h2, if_false]
        rw [ih]
        have hp2 : isHexDigit p := not_not.mp (hp.not.mp h1)
        have hq2 : isHexDigit q := not_not.mp (hq.not.mp h2)
        constructor
        · rintro ⟨hl, ha⟩
          exact ⟨by omega, hp2, hq2, ha⟩
        · rintro ⟨hl, _, _, ha⟩
          exact ⟨by omega, ha⟩

theorem DecodeString_ok_value (t : Bytes) (h : (DecodeString t).2 = none) :
    (DecodeString t).1 = hexBytes t ∧ 2 * (DecodeString t).1.length = t.length := by
  induction t using pairs_induction with
  | h0 => simp [DecodeString, hexBytes]
  | h1 p =>
    unfold DecodeString at h
    split_ifs at h
  | h2 p q r ih =>
    have hall := (DecodeString_ok_iff (p :: q :: r)).mp h
    have hp : isHexDigit p := hall.2 p (by simp)
    have hq : isHexDigit q := hall.2 q (by simp)
    have hr : (DecodeString r).2 = none := by
      rw [DecodeString_ok_iff]
      refine ⟨?_, fun c hc => hall.2 c (by simp [hc])⟩
      have := hall.1
      simp only [List.length_cons] at this
      omega
    have lp := reverseHexTable_le p hp
    have lq := reverseHexTable_le q hq
    have e : DecodeString (p :: q :: r)
        = ((reverseHexTable p * 16 + reverseHexTable q) % 256 :: (DecodeString r).1,
            (DecodeString r).2) := by
      rw [DecodeString]
      simp only [gt_iff_lt, Nat.not_lt.mpr lp, Nat.not_lt.mpr lq, if_false]
    rw [e]
    obtain ⟨iv, il⟩ := ih hr
    simp only [hexBytes, List.length_cons, iv]
    rw [← iv, ← reverseHexTable_eq_hexValue p hp, ← reverseHexTable_eq_hexValue q hq]
    refine ⟨?_, by omega⟩
    congr 1
    omega

theorem copy_replicate (R : Nat) (d : Bytes) :
    copy (List.replicate R 0) d = d.take R ++ List.replicate (R - d.length) 0 := by
  unfold copy
  rw [List.length_replicate, List.drop_replicate]

theorem received_tail_short (R : Nat) (d : Bytes) (hR : 32 ≤ R) (hd : d.length ≤ 32) :
    (copy (List.replicate R 0) d).drop 32 = List.replicate (R - 32) 0 := by
  rw [copy_replicate, List.take_of_length_le (by omega), List.drop_append_eq_append_drop,
    List.drop_of_length_le hd, List.nil_append, List.drop_replicate]
  congr 1
  omega

theorem received_tail_long (R : Nat) (d : Bytes) (hd : 32 ≤ d.length) (hR : d.length ≤ R) :
    (copy (List.replicate R 0) d).drop 32 = d.drop 32 ++ List.replicate (R - d.length) 0 := by
  rw [copy_replicate, List.take_of_length_le hR, List.drop_append_of_le_length hd]

theorem Read_datagram (c : Conn) (b d : Bytes) (rs : List ReadEvent)
    (hr : c.conn.reads = .datagram d :: rs) (hR : 32 ≤ c.ReadBufferSize)
    (hmax : c.ReadBufferSize ≤ maxAlloc) :
    Conn.Read c b = .done
      ⟨((min d.length c.ReadBufferSize.toNat : Nat) : Int) - 32, none,
       copy b (c.keys.decrypt ((copy (List.replicate c.ReadBufferSize.toNat 0) d).drop 32)),
       [(copy (List.replicate c.ReadBufferSize.toNat 0) d).drop 32],
       { c.conn with reads := rs }⟩ := by
  have hneg : ¬ (c.ReadBufferSize < 0 ∨ maxAlloc < c.ReadBufferSize) := by omega
  have h32 : 32 ≤ (copy (List.replicate c.ReadBufferSize.toNat 0) d).length := by
    rw [copy_length, List.length_replicate]
    omega
  unfold Conn.Read make
  simp only [hneg, if_false, Run.bind, Sock.Read, hr, List.length_replicate, sliceFrom,
    h32, if_true]

/-- Each of the three causes of a failed handshake makes `Conn.handshake`
return a non-nil error: the probe write fails, the response read fails, or
the response does not have exactly 32 bytes. -/
theorem handshake_error_causes (c : Conn) (hR : 0 ≤ c.ReadBufferSize)
    (hmax : c.ReadBufferSize ≤ maxAlloc) :
    (∀ n e ws, c.conn.writes = .fail n e :: ws →
      ∃ s1, c.handshake = .done ((none, some e), s1)) ∧
    (∀ ws n e rs, (c.conn.writes = [] ∨ c.conn.writes = .ok :: ws) →
      c.conn.reads = .fail n e :: rs →
      ∃ s1, c.handshake = .done ((none, some e), s1)) ∧
    (∀ ws d rs, (c.conn.writes = [] ∨ c.conn.writes = .ok :: ws) →
      c.conn.reads = .datagram d :: rs → min d.length c.ReadBufferSize.toNat ≠ 32 →
      ∃ s1, c.handshake
        = .done ((none, some (.handshakeLength (min d.length c.ReadBufferSize.toNat))), s1)) := by
  have hneg : ¬ (c.ReadBufferSize < 0 ∨ maxAlloc < c.ReadBufferSize) := by omega
  refine ⟨?_, ?_, ?_⟩
  · intro n e ws hw
    unfold Conn.handshake Sock.Write
    simp only [hw]
    exact ⟨_, rfl⟩
  · intro ws n e rs hw hr
    unfold Conn.handshake Sock.Write make
    rcases hw with hw | hw <;>
      simp only [hw, hneg, if_false, Run.bind, Sock.Read, hr] <;> exact ⟨_, rfl⟩
  · intro ws d rs hw hr hne
    have hb : (0 : Int) ≤ ((min d.length c.ReadBufferSize.toNat : Nat) : Int) ∧
        ((min d.length c.ReadBufferSize.toNat : Nat) : Int)
          ≤ ((copy (List.replicate c.ReadBufferSize.toNat 0) d).length : Int) := by
      rw [copy_length, List.length_replicate]
      omega
    have hl : ((copy (List.replicate c.ReadBufferSize.toNat 0) d).take
        (min d.length c.ReadBufferSize.toNat)).length
          = min d.length c.ReadBufferSize.toNat := by
      rw [List.length_take, copy_length, List.length_replicate]
      omega
    have hp := parseHandshakeResponse_of_length_ne
      ((copy (List.replicate c.ReadBufferSize.toNat 0) d).take
        (min d.length c.ReadBufferSize.toNat)) (by rw [hl]; exact hne)
    rw [hl] at hp
    unfold Conn.handshake Sock.Write make
    rcases hw with hw | hw <;>
      simp only [hw, hneg, if_false, Run.bind, Sock.Read, hr, List.length_replicate,
        sliceTo, hb, and_self, if_true, Int.toNat_ofNat, hp] <;> exact ⟨_, rfl⟩

/-! ## Claims about `prepareRequest` and `parseHandshakeResponse` -/

/-- C1: for every token, every handshake result with `uint32` fields and every
body, the frame of `prepareRequest` begins with `0x21 0x31`, the big-endian
`uint32` reads at offsets 8 and 12 give back `deviceID` and `serverStamp`, and
for the empty body `parseHandshakeResponse` of the frame succeeds with the
same handshake result. -/
theorem prepareRequest_recovers_handshake (md5 : List Bytes → Bytes) (token : Bytes)
    (h : handshakeResponse) (body : Bytes) (hv : h.valid) :
    (prepareRequest md5 token h body).take 2 = [0x21, 0x31] ∧
    (sliceFrom (prepareRequest md5 token h body) 8).bind Uint32 = .done h.deviceID ∧
    (sliceFrom (prepareRequest md5 token h body) 12).bind Uint32 = .done h.serverStamp ∧
    parseHandshakeResponse (prepareRequest md5 token h []) = .done (some h, none) := by
  obtain ⟨hd, hs⟩ := hv
  have e8 : ∀ b : Bytes, (sliceFrom (prepareRequest md5 token h b) 8).bind Uint32
      = .done h.deviceID := by
    intro b
    have hle : 8 ≤ (prepareRequest md5 token h b).length := by
      rw [prepareRequest_length]; omega
    rw [sliceFrom, if_pos hle, prepareRequest_eq]
    simp only [headerFront, List.cons_append, List.drop_succ_cons, List.drop_zero,
      Run.bind, Uint32]
    rw [be32_roundtrip _ hd]
  have e12 : ∀ b : Bytes, (sliceFrom (prepareRequest md5 token h b) 12).bind Uint32
      = .done h.serverStamp := by
    intro b
    have hle : 12 ≤ (prepareRequest md5 token h b).length := by
      rw [prepareRequest_length]; omega
    rw [sliceFrom, if_pos hle, prepareRequest_eq]
    simp only [headerFront, List.cons_append, List.drop_succ_cons, List.drop_zero,
      Run.bind, Uint32]
    rw [be32_roundtrip _ hs]
  refine ⟨?_, e8 body, e12 body, ?_⟩
  · rw [prepareRequest_eq]; rfl
  · have hlen : (prepareRequest md5 token h []).length = 32 := by
      rw [prepareRequest_length]; rfl
    have h8 := e8 []
    have h12 := e12 []
    unfold parseHandshakeResponse
    simp only [hlen, ne_eq, not_true_eq_false, if_false]
    cases hA : sliceFrom (prepareRequest md5 token h []) 8 with
    | panic m => rw [hA] at h8; simp [Run.bind] at h8
    | done s8 =>
      rw [hA] at h8
      simp only [Run.bind] at h8 ⊢
      rw [h8]
      cases hB : sliceFrom (prepareRequest md5 token h []) 12 with
      | panic m => rw [hB] at h12; simp [Run.bind] at h12
      | done s12 =>
        rw [hB] at h12
        simp only [Run.bind] at h12 ⊢
        rw [h12]

/-- Witness of C1: handshake result (0x01020304, 0xA0B0C0D0), a three-byte
body and a digest that returns sixteen bytes 7. -/
theorem prepareRequest_recovers_handshake_witness :
    (⟨16909060, 2696986832⟩ : handshakeResponse).valid ∧
    ((prepareRequest (fun _ => List.replicate 16 7) [1, 2] ⟨16909060, 2696986832⟩
        [9, 8, 7]).take 2 = [0x21, 0x31] ∧
     (sliceFrom (prepareRequest (fun _ => List.replicate 16 7) [1, 2]
        ⟨16909060, 2696986832⟩ [9, 8, 7]) 8).bind Uint32 = .done 16909060 ∧
     (sliceFrom (prepareRequest (fun _ => List.replicate 16 7) [1, 2]
        ⟨16909060, 2696986832⟩ [9, 8, 7]) 12).bind Uint32 = .done 2696986832 ∧
     parseHandshakeResponse (prepareRequest (fun _ => List.replicate 16 7) [1, 2]
        ⟨16909060, 2696986832⟩ []) = .done (some ⟨16909060, 2696986832⟩, none)) :=
  ⟨by decide, prepareRequest_recovers_handshake _ _ _ _ (by decide)⟩

/-- C2, counterexample: with a body of 65504 bytes the frame has 65536 bytes
but its total-length field reads 0. -/
theorem total_length_field_wraps :
    (sliceFrom (prepareRequest (fun _ => List.replicate 16 0) [] ⟨0, 0⟩
        (List.replicate 65504 0)) 2).bind Uint16 = .done 0 ∧
    32 + (List.replicate 65504 0 : Bytes).length = 65536 := by
  refine ⟨?_, ?_⟩
  · rw [total_length_field, List.length_replicate]
  · rw [List.length_replicate]

/-- C2, amended: the total-length field of the frame of `prepareRequest`
(bytes 2-3, big-endian) equals `(32 + len body) mod 65536`, and so equals
`32 + len body` for every body of at most 65503 bytes. -/
theorem total_length_field_mod (md5 : List Bytes → Bytes) (token : Bytes)
    (h : handshakeResponse) (body : Bytes) :
    (sliceFrom (prepareRequest md5 token h body) 2).bind Uint16
      = .done ((32 + body.length) % 65536) ∧
    (body.length ≤ 65503 →
      (sliceFrom (prepareRequest md5 token h body) 2).bind Uint16
        = .done (32 + body.length)) := by
  refine ⟨total_length_field md5 token h body, fun hb => ?_⟩
  rw [total_length_field, Nat.mod_eq_of_lt (by omega)]

/-- Witness of C2: a five-byte body gives the field value 37. -/
theorem total_length_field_mod_witness :
    (sliceFrom (prepareRequest (fun _ => List.replicate 16 7) [1, 2] ⟨3, 4⟩
        [1, 2, 3, 4, 5]) 2).bind Uint16 = .done 37 :=
  (total_length_field_mod (fun _ => List.replicate 16 7) [1, 2] ⟨3, 4⟩
    [1, 2, 3, 4, 5]).2 (by decide)

/-- C3: the frame of `prepareRequest` has exactly `32 + len body` bytes, its
bytes from offset 32 on are the body, and it is its first 32 bytes followed
by the body. -/
theorem prepareRequest_header_then_body (md5 : List Bytes → Bytes) (token : Bytes)
    (h : handshakeResponse) (body : Bytes) :
    (prepareRequest md5 token h body).length = 32 + body.length ∧
    (prepareRequest md5 token h body).drop 32 = body ∧
    prepareRequest md5 token h body = (prepareRequest md5 token h body).take 32 ++ body := by
  have hl : (headerFront body.length h ++ copy (List.replicate 16 0)
      (md5 [headerFront body.length h, token, body])).length = 32 := by
    simp only [List.length_append, copy_length, List.length_replicate, headerFront,
      List.length_cons, List.length_nil]
  refine ⟨prepareRequest_length md5 token h body, ?_, ?_⟩
  · rw [prepareRequest_eq, ← hl, List.drop_left]
  · rw [prepareRequest_eq, ← hl, List.take_left]

/-- C4: when `md5` hashes the concatenation of its arguments with a digest
that returns 16 bytes, bytes 16..31 of the frame of `prepareRequest` are the
digest of `frame[0:16] ‖ token ‖ body`, where `frame[0:16]` is the magic, the
total length, four zero bytes, `deviceID` and `serverStamp`. -/
theorem prepareRequest_checksum (md5 : List Bytes → Bytes) (digest : Bytes → Bytes)
    (token : Bytes) (h : handshakeResponse) (body : Bytes)
    (hcat : ∀ a b c : Bytes, md5 [a, b, c] = digest (a ++ b ++ c))
    (h16 : ∀ x : Bytes, (digest x).length = 16) :
    slice (prepareRequest md5 token h body) 16 32
      = digest (slice (prepareRequest md5 token h body) 0 16 ++ token ++ body) ∧
    slice (prepareRequest md5 token h body) 0 16 =
      [0x21, 0x31, (32 + body.length) % 65536 / 256 % 256, (32 + body.length) % 65536 % 256,
       0, 0, 0, 0,
       h.deviceID / 16777216 % 256, h.deviceID / 65536 % 256,
       h.deviceID / 256 % 256, h.deviceID % 256,
       h.serverStamp / 16777216 % 256, h.serverStamp / 65536 % 256,
       h.serverStamp / 256 % 256, h.serverStamp % 256] := by
  have hf : (headerFront body.length h).length = 16 := rfl
  have hc : copy (List.replicate 16 0) (md5 [headerFront body.length h, token, body])
      = digest (headerFront body.length h ++ token ++ body) := by
    rw [hcat]
    exact copy_of_length_eq _ _ (by rw [h16, List.length_replicate])
  have front : slice (prepareRequest md5 token h body) 0 16 = headerFront body.length h := by
    rw [prepareRequest_eq, slice, List.drop_zero, List.append_assoc]
    rw [← hf, List.take_left]
  refine ⟨?_, front⟩
  rw [front, prepareRequest_eq, hc, slice]
  have h32 : (headerFront body.length h
      ++ digest (headerFront body.length h ++ token ++ body)).length = 32 := by
    rw [List.length_append, h16, hf]
  rw [← h32, List.take_left, ← hf, List.drop_left]

/-- Witness of C4: the sample digest keeps the first 16 bytes of its
zero-padded input, so it depends on header, token and body. -/
theorem prepareRequest_checksum_witness :
    slice (prepareRequest sampleMd5 [1, 2] ⟨3, 4⟩ [5, 6]) 16 32
      = sampleDigest (slice (prepareRequest sampleMd5 [1, 2] ⟨3, 4⟩ [5, 6]) 0 16
          ++ [1, 2] ++ [5, 6]) :=
  (prepareRequest_checksum sampleMd5 sampleDigest [1, 2] ⟨3, 4⟩ [5, 6]
    (by intro a b c; simp [sampleMd5])
    (by intro x; simp [sampleDigest])).1

/-- C5: `parseHandshakeResponse` never panics; it returns an error exactly
when the input is not 32 bytes long; on 32 bytes it succeeds with `deviceID`
the big-endian value of bytes 8..11 and `serverStamp` that of bytes 12..15,
so two 32-byte inputs that agree on bytes 8..15 give the same result. -/
theorem parseHandshakeResponse_spec (b : Bytes) :
    (∀ m, parseHandshakeResponse b ≠ .panic m) ∧
    ((∃ e, parseHandshakeResponse b = .done (none, some e)) ↔ b.length ≠ 32) ∧
    (b.length = 32 → parseHandshakeResponse b = .done
      (some ⟨b.getD 8 0 * 16777216 + b.getD 9 0 * 65536 + b.getD 10 0 * 256 + b.getD 11 0,
             b.getD 12 0 * 16777216 + b.getD 13 0 * 65536 + b.getD 14 0 * 256 + b.getD 15 0⟩,
       none)) ∧
    (∀ c : Bytes, b.length = 32 → c.length = 32 → slice b 8 16 = slice c 8 16 →
      parseHandshakeResponse b = parseHandshakeResponse c) := by
  refine ⟨?_, ?_, parseHandshakeResponse_of_length b, ?_⟩
  · intro m
    by_cases h : b.length = 32
    · rw [parseHandshakeResponse_of_length b h]; exact fun e => by cases e
    · rw [parseHandshakeResponse_of_length_ne b h]; exact fun e => by cases e
  · constructor
    · rintro ⟨e, he⟩ h
      rw [parseHandshakeResponse_of_length b h] at he
      cases he
    · intro h
      exact ⟨_, parseHandshakeResponse_of_length_ne b h⟩
  · intro c hb hc hs
    rw [parseHandshakeResponse_of_length b hb, parseHandshakeResponse_of_length c hc]
    have g : ∀ k, 8 + k < 16 → b.getD (8 + k) 0 = c.getD (8 + k) 0 :=
      fun k hk => getD_of_slice_eq b c 8 16 k hk hs
    have g0 := g 0 (by omega)
    have g1 := g 1 (by omega)
    have g2 := g 2 (by omega)
    have g3 := g 3 (by omega)
    have g4 := g 4 (by omega)
    have g5 := g 5 (by omega)
    have g6 := g 6 (by omega)
    have g7 := g 7 (by omega)
    simp only [Nat.reduceAdd] at g0 g1 g2 g3 g4 g5 g6 g7
    rw [g0, g1, g2, g3, g4, g5, g6, g7]

/-- Witness of C5: a 32-byte response with bytes 8..15 equal to
`00 00 01 02 00 00 00 07` parses to device 258 and stamp 7. -/
theorem parseHandshakeResponse_spec_witness :
    parseHandshakeResponse
      [33, 49, 0, 32, 0, 0, 0, 0, 0, 0, 1, 2, 0, 0, 0, 7,
       9, 9, 9, 9, 9, 9, 9, 9, 9, 9, 9, 9, 9, 9, 9, 9] = .done (some ⟨258, 7⟩, none) :=
  (parseHandshakeResponse_spec
    [33, 49, 0, 32, 0, 0, 0, 0, 0, 0, 1, 2, 0, 0, 0, 7,
     9, 9, 9, 9, 9, 9, 9, 9, 9, 9, 9, 9, 9, 9, 9, 9]).2.2.1 (by decide)

/-! ## Claims about `Conn.Write` and `Dial` -/

/-- C7: whenever the handshake inside `Conn.Write` returns a non-nil error,
`Write` returns `(0, err)` with that error, and the datagrams handed to the
socket during the call are exactly one: the 32-byte probe `21 31 00 20`
followed by 28 bytes `ff`; no frame built from the payload is sent. -/
theorem Write_aborts_on_handshake_error (md5 : List Bytes → Bytes) (c : Conn) (b : Bytes)
    (hr : Option handshakeResponse) (err : GoError) (s1 : Sock)
    (hf : c.handshake = .done ((hr, some err), s1)) :
    (∃ out, Conn.Write md5 c b = .done out ∧ out.n = 0 ∧ out.err = some err ∧
      out.conn.sent = c.conn.sent ++ [probe]) ∧
    probe = [0x21, 0x31, 0x00, 0x20] ++ List.replicate 28 0xff ∧ probe.length = 32 := by
  refine ⟨⟨⟨0, some err, s1⟩, ?_, rfl, rfl, handshake_sent c _ s1 hf⟩, rfl, rfl⟩
  unfold Conn.Write
  rw [hf]
  rfl

/-- Witness of C7: the device answers the probe with a 31-byte datagram. -/
theorem Write_aborts_on_handshake_error_witness :
    ∃ out, Conn.Write sampleMd5
        (sampleConn 64 [] [.datagram (List.replicate 31 1)]) [1, 2, 3] = .done out ∧
      out.n = 0 ∧ out.err = some (.handshakeLength 31) ∧
      out.conn.sent = (sampleConn 64 [] [.datagram (List.replicate 31 1)]).conn.sent ++ [probe] :=
  (Write_aborts_on_handshake_error sampleMd5
    (sampleConn 64 [] [.datagram (List.replicate 31 1)]) [1, 2, 3]
    none (.handshakeLength 31) ⟨[probe], [], []⟩ (by rfl)).1

/-- C8: when `net.Dial` opens the socket, `Dial` returns an error exactly for
the token strings that are not 32 hexadecimal digits, and for a string of 32
hexadecimal digits it succeeds, storing the 16 bytes written by the digits
as `Token`, `ReadBufferSize = 4096` and the opened socket. -/
theorem Dial_token_validation (netDial : String → Bytes → Except GoError Sock)
    (newDeviceKeys : Bytes → deviceKeys) (addr token : Bytes) (sock : Sock)
    (hopen : netDial proto addr = .ok sock) :
    ((∃ e, Dial netDial newDeviceKeys addr token = .error e) ↔
      ¬ (token.length = 32 ∧ ∀ c ∈ token, isHexDigit c)) ∧
    (token.length = 32 → (∀ c ∈ token, isHexDigit c) →
      ∃ conn, Dial netDial newDeviceKeys addr token = .ok conn ∧
        conn.Token = hexBytes token ∧ conn.Token.length = 16 ∧
        conn.ReadBufferSize = 4096 ∧ conn.conn = sock) := by
  have good : token.length = 32 → (∀ c ∈ token, isHexDigit c) →
      ∃ conn, Dial netDial newDeviceKeys addr token = .ok conn ∧
        conn.Token = hexBytes token ∧ conn.Token.length = 16 ∧
        conn.ReadBufferSize = 4096 ∧ conn.conn = sock := by
    intro hl ha
    have hok : (DecodeString token).2 = none :=
      (DecodeString_ok_iff token).mpr ⟨by omega, ha⟩
    obtain ⟨hv, hlen⟩ := DecodeString_ok_value token hok
    have h16 : (DecodeString token).1.length = 16 := by omega
    refine ⟨⟨(DecodeString token).1, DefaultReadBufferSize, 0, sock,
      newDeviceKeys (DecodeString token).1⟩, ?_, hv, h16, rfl, rfl⟩
    unfold Dial
    simp only [hopen, hok, h16, ne_eq, not_true_eq_false, if_false]
  refine ⟨⟨?_, ?_⟩, good⟩
  · rintro ⟨e, he⟩ ⟨hl, ha⟩
    obtain ⟨conn, hc, _⟩ := good hl ha
    rw [hc] at he
    cases he
  · intro hbad
    unfold Dial
    simp only [hopen]
    cases hd : (DecodeString token).2 with
    | some err => exact ⟨err, rfl⟩
    | none =>
      obtain ⟨hv, hlen⟩ := DecodeString_ok_value token hd
      have hall := (DecodeString_ok_iff token).mp hd
      have hne : (DecodeString token).1.length ≠ 16 := by
        intro h16
        exact hbad ⟨by omega, hall.2⟩
      simp only [ne_eq, hne, not_false_eq_true, if_true]
      exact ⟨_, rfl⟩

/-- Witness of C8: the token of the example in the documentation of `Dial`,
`a0b1c2d3e4f5a0b1c2d3e4f5a0b1c2d3`. -/
theorem Dial_token_validation_witness :
    ∃ conn, Dial (fun _ _ => .ok ⟨[], [], []⟩) (fun _ => sampleKeys) []
        [97, 48, 98, 49, 99, 50, 100, 51, 101, 52, 102, 53, 97, 48, 98, 49,
         99, 50, 100, 51, 101, 52, 102, 53, 97, 48, 98, 49, 99, 50, 100, 51] = .ok conn ∧
      conn.Token = hexBytes
        [97, 48, 98, 49, 99, 50, 100, 51, 101, 52, 102, 53, 97, 48, 98, 49,
         99, 50, 100, 51, 101, 52, 102, 53, 97, 48, 98, 49, 99, 50, 100, 51] ∧
      conn.Token.length = 16 ∧ conn.ReadBufferSize = 4096 ∧ conn.conn = ⟨[], [], []⟩ :=
  (Dial_token_validation (fun _ _ => .ok ⟨[], [], []⟩) (fun _ => sampleKeys) []
    [97, 48, 98, 49, 99, 50, 100, 51, 101, 52, 102, 53, 97, 48, 98, 49,
     99, 50, 100, 51, 101, 52, 102, 53, 97, 48, 98, 49, 99, 50, 100, 51]
    ⟨[], [], []⟩ rfl).2 (by decide) (by decide)

/-! ## Claims about `Conn.Read` -/

/-- C6, the code at the failing input: with the default buffer of 4096 bytes
and a received datagram of 10 bytes, `Conn.Read` returns the count -22 with a
nil error, after one call of `decrypt` on the 4064 zero bytes that follow
offset 32 of its buffer. -/
theorem Read_short_datagram_returns_negative (keys : deviceKeys) (token b : Bytes) :
    ∃ out, Conn.Read ⟨token, DefaultReadBufferSize, 0,
        ⟨[], [], [.datagram [1, 2, 3, 4, 5, 6, 7, 8, 9, 10]]⟩, keys⟩ b = .done out ∧
      out.n = -22 ∧ out.err = none ∧ out.decryptCalls = [List.replicate 4064 0] := by
  have hR : (32 : Int) ≤ DefaultReadBufferSize := by decide
  have hmax : DefaultReadBufferSize ≤ maxAlloc := by decide
  refine ⟨_, Read_datagram _ b [1, 2, 3, 4, 5, 6, 7, 8, 9, 10] [] rfl hR hmax, ?_, rfl, ?_⟩
  · show ((min 10 (4096 : Int).toNat : Nat) : Int) - 32 = -22
    decide
  · show [List.drop 32 (copy (List.replicate 4096 0) [1, 2, 3, 4, 5, 6, 7, 8, 9, 10])] = _
    rw [received_tail_short 4096 _ (by omega) (by decide)]

/-- C10, the code at the failing input: with the default buffer of 4096 bytes
and a received datagram of 48 bytes, the one call of `decrypt` gets the 16
received ciphertext bytes followed by 4048 zero bytes of the buffer, not the
16 received bytes alone, and the caller's buffer is filled from that. -/
theorem Read_decrypts_unreceived_bytes (keys : deviceKeys) (token b : Bytes) :
    ∃ out, Conn.Read ⟨token, DefaultReadBufferSize, 0,
        ⟨[], [], [.datagram sampleDatagram]⟩, keys⟩ b = .done out ∧
      out.n = 16 ∧ out.err = none ∧
      out.decryptCalls = [sampleCipher ++ List.replicate 4048 0] ∧
      out.decryptCalls ≠ [sampleDatagram.drop 32] ∧
      out.b = copy b (keys.decrypt (sampleCipher ++ List.replicate 4048 0)) := by
  have e : List.drop 32 (copy (List.replicate 4096 0) sampleDatagram)
      = sampleCipher ++ List.replicate 4048 0 := by
    rw [received_tail_long 4096 _ (by decide) (by decide)]
    rfl
  have hR : (32 : Int) ≤ DefaultReadBufferSize := by decide
  have h1 : (sampleCipher ++ List.replicate 4048 0).length = 4064 := by
    rw [List.length_append, List.length_replicate]
    rfl
  have h2 : (sampleDatagram.drop 32).length = 16 := by decide
  have hmax : DefaultReadBufferSize ≤ maxAlloc := by decide
  refine ⟨_, Read_datagram _ b sampleDatagram [] rfl hR hmax, ?_, rfl, ?_, ?_, ?_⟩
  · show ((min 48 (4096 : Int).toNat : Nat) : Int) - 32 = 16
    decide
  · show [List.drop 32 (copy (List.replicate 4096 0) sampleDatagram)] = _
    rw [e]
  · show [List.drop 32 (copy (List.replicate 4096 0) sampleDatagram)] ≠ _
    rw [e]
    intro h
    have hl := congrArg List.length (List.cons.inj h).1
    rw [h1, h2] at hl
    exact absurd hl (by decide)
  · show copy b (keys.decrypt (List.drop 32 (copy (List.replicate 4096 0) sampleDatagram))) = _
    rw [e]

/-- C9, the code at the failing input: a read buffer of 48 bytes, a received
datagram of 48 bytes and a caller buffer of 4 bytes.  The decrypted payload
has 16 bytes; `Conn.Read` copies its first 4 bytes into the caller buffer and
returns the count 16 with a nil error, and the slice expression `b[:16]` on
the 4-byte buffer, as `Client.Send` takes it, panics. -/
theorem Read_count_exceeds_caller_buffer :
    Conn.Read (sampleConn 48 [] [.datagram sampleDatagram]) [0, 0, 0, 0]
      = .done ⟨16, none, [10, 20, 30, 40], [sampleCipher], ⟨[], [], []⟩⟩ ∧
    (sampleKeys.decrypt sampleCipher).length = 16 ∧
    ([10, 20, 30, 40] : Bytes).length = 4 ∧
    sliceTo [10, 20, 30, 40] 16 = .panic "slice bounds out of range" := by
  refine ⟨?_, ?_, ?_, ?_⟩ <;> decide

end Miio
